import Mathlib

/-!
Shallow embedding of the `heureka/service-container` repository
(`src/servicecontainer/__init__.py`).

The repository implements a dependency-injection container:

* `ServiceContainer` holds a mapping from service names to provider
  callables and, on attribute access, creates a throwaway
  `ServiceContainerTransaction` and resolves the name on it.
* `ServiceContainerTransaction` holds its own copy of the provider
  mapping, a mutable cache of already-created service instances
  (`_services`), and a `params` mapping.  Attribute access returns the
  cached instance or invokes the provider (with zero arguments, or with
  the transaction itself when the provider declares one parameter) and
  caches the result.  `_create_transaction` forks the transaction,
  copying providers, cache and params, refusing to override an existing
  param key.

Modelling choices, which are fixed for the whole file:

* Python object identity is modelled by an allocation counter: every
  evaluation step threads a `Nat` counter and `object()` yields
  `Value.obj` applied to the current counter.  Two values are the same
  Python object iff they are equal in this model.
* Provider callables are opaque Python functions; they are modelled by
  a small deep-embedded body language.  `PExp` is the body of a
  one-parameter provider (it can read the transaction: nested service
  lookups, param reads); `PExp0` is the body of a zero-parameter
  provider (it cannot mention the transaction).  A registered binding
  is a `Provider`: a non-callable value, a callable of declared arity
  0 or 1 together with its body, or a callable of some other declared
  arity (whose body is never reachable in the source, so it is not
  carried).
* Python exceptions are the `Err` type; `errMessage` reproduces the
  message strings built by the source.  An uncaught exception
  propagates out of the resolution while the cache mutations already
  performed stay in place, so every operation returns the error
  together with the state at the moment of the raise:
  `Except Err Value × ServiceContainerTransaction × Nat`.
* Python bounds recursion by the interpreter recursion limit and
  raises `RecursionError`; the model threads a fuel argument and
  returns `Err.recursionError` when the fuel is exhausted.
* Python `dict` is modelled by an association list: lookup finds the
  first binding, assignment to a present key replaces the binding in
  place, assignment to an absent key appends.
-/

/-- A service instance or other Python value.  `obj id` is an object
with identity `id` as produced by `object()`; equality of `obj` values
is Python `is`. -/
inductive Value where
  | obj (id : Nat)
  | str (s : String)
  | bool (b : Bool)
  | vnat (n : Nat)
deriving DecidableEq, Repr

/-- Body of a zero-parameter provider callable: it cannot mention the
transaction.  It may return a constant, allocate a fresh object, or
raise. -/
inductive PExp0 where
  | lit (v : Value)
  | newObj
  | raiseE (msg : String)
deriving DecidableEq, Repr

/-- Body of a one-parameter provider callable, which receives the
current transaction `t`: constants, `object()` allocation, nested
service lookup `t.name`, param read `t.params[key]`, sequencing
(evaluate and discard, then continue), Python `is` comparison of two
subresults, and raising an exception. -/
inductive PExp where
  | lit (v : Value)
  | newObj
  | getSvc (name : String)
  | param (key : String)
  | seqE (a b : PExp)
  | isE (a b : PExp)
  | raiseE (msg : String)
deriving DecidableEq, Repr

/-- A registered binding for a service name.  `notCallable txt` is a
non-callable value whose printed representation is `txt`; `fn0` and
`fn1` are callables of declared arity 0 and 1 with their bodies;
`fnN count` is a callable whose declared parameter count is `count`,
where `count` is neither 0 nor 1 (its body is unreachable in the
source, which raises before invoking it). -/
inductive Provider where
  | notCallable (txt : String)
  | fn0 (body : PExp0)
  | fn1 (body : PExp)
  | fnN (count : Nat)
deriving DecidableEq, Repr

/-- The exceptions raised by the source (plus `userError`, an
exception raised inside provider code, and `recursionError`, the
interpreter recursion-limit error). -/
inductive Err where
  | missingProvider (name : String)
  | notCallable (txt : String)
  | invalidArity (count : Nat)
  | paramOverride (key : String)
  | missingParam (key : String)
  | userError (msg : String)
  | recursionError
deriving DecidableEq, Repr

/-- The message string carried by each exception, reproducing the
format strings in the source (`KeyError` on a dict carries the missing
key itself). -/
def errMessage : Err → String
  | .missingProvider n => "Missing provider for service \x22" ++ n ++ "\x22"
  | .notCallable t => "Service provider must be callable, got \x27" ++ t ++ "\x27 instead."
  | .invalidArity c => "Service provider must accept 0 or 1 argument (haddr), got " ++ toString c ++ "."
  | .paramOverride k => "Cannot override param \x27" ++ k ++ "\x27, to change it you have to start a fresh transaction."
  | .missingParam k => k
  | .userError m => m
  | .recursionError => "maximum recursion depth exceeded"

/-- Python dict lookup on an association list: the first binding for
the key, if any. -/
def alookup {α : Type} : List (String × α) → String → Option α
  | [], _ => none
  | (k, v) :: rest, key => if key = k then some v else alookup rest key

/-- Replacement of the binding for a present key, keeping its
position. -/
def dictReplace {α : Type} : List (String × α) → String → α → List (String × α)
  | [], _, _ => []
  | (k', v') :: rest, k, v =>
    if k' = k then (k, v) :: dictReplace rest k v else (k', v') :: dictReplace rest k v

/-- Python dict assignment `d[k] = v` on an association list: replace
the binding in place when the key is present, append otherwise. -/
def dictInsert {α : Type} (l : List (String × α)) (k : String) (v : α) : List (String × α) :=
  if (alookup l k).isSome then dictReplace l k v
  else l ++ [(k, v)]

/-- Models the class `ServiceContainer`: it owns the mapping from
service names to providers (field `_service_providers`). -/
structure ServiceContainer where
  service_providers : List (String × Provider)
deriving DecidableEq, Repr

/-- Models the class `ServiceContainerTransaction`: its own copy of
the provider mapping (`_service_providers`), the cache of created
service instances (`_services`), and the `params` mapping. -/
structure ServiceContainerTransaction where
  service_providers : List (String × Provider)
  services : List (String × Value)
  params : List (String × Value)
deriving DecidableEq, Repr

/-- Invocation of a zero-parameter provider body: it only threads the
allocation counter. -/
def invoke0 (body : PExp0) (σ : Nat) : Except Err Value × Nat :=
  match body with
  | .lit v => (.ok v, σ)
  | .newObj => (.ok (.obj σ), σ + 1)
  | .raiseE m => (.error (.userError m), σ)

mutual

/-- Models `ServiceContainerTransaction.__getattr__(name)`: return the
cached instance when present; otherwise call `_get_service` and store
its result in the cache under `name`.  The first argument is fuel
(Python recursion limit); the `Nat` threaded beside the transaction is
the allocation counter. -/
def tx_getattr : Nat → ServiceContainerTransaction → Nat → String →
    Except Err Value × ServiceContainerTransaction × Nat
  | 0, t, σ, _ => (.error .recursionError, t, σ)
  | fuel + 1, t, σ, name =>
    match alookup t.services name with
    | some v => (.ok v, t, σ)
    | none =>
      match tx_get_service fuel t σ name with
      | (.ok v, t₁, σ₁) => (.ok v, { t₁ with services := dictInsert t₁.services name v }, σ₁)
      | (.error e, t₁, σ₁) => (.error e, t₁, σ₁)

/-- Models `ServiceContainerTransaction._get_service(name)`: look the
provider up; raise when the name is unbound or the binding is not
callable; dispatch on the declared parameter count, invoking with no
arguments (arity 0), with this transaction as sole argument (arity 1),
or raising (any other arity). -/
def tx_get_service : Nat → ServiceContainerTransaction → Nat → String →
    Except Err Value × ServiceContainerTransaction × Nat
  | 0, t, σ, _ => (.error .recursionError, t, σ)
  | fuel + 1, t, σ, name =>
    match alookup t.service_providers name with
    | none => (.error (.missingProvider name), t, σ)
    | some (.notCallable txt) => (.error (.notCallable txt), t, σ)
    | some (.fn0 body) =>
      match invoke0 body σ with
      | (r, σ₁) => (r, t, σ₁)
    | some (.fn1 body) => evalP fuel t σ body
    | some (.fnN c) => (.error (.invalidArity c), t, σ)

/-- Evaluation of a one-parameter provider body against the
transaction it received: nested lookups go through `tx_getattr` on the
same transaction (sharing its cache and params), param reads go
through the `params` mapping, exceptions propagate leaving the state
reached so far. -/
def evalP : Nat → ServiceContainerTransaction → Nat → PExp →
    Except Err Value × ServiceContainerTransaction × Nat
  | 0, t, σ, _ => (.error .recursionError, t, σ)
  | fuel + 1, t, σ, e =>
    match e with
    | .lit v => (.ok v, t, σ)
    | .newObj => (.ok (.obj σ), t, σ + 1)
    | .raiseE m => (.error (.userError m), t, σ)
    | .param k =>
      match alookup t.params k with
      | some v => (.ok v, t, σ)
      | none => (.error (.missingParam k), t, σ)
    | .getSvc n => tx_getattr fuel t σ n
    | .seqE a b =>
      match evalP fuel t σ a with
      | (.ok _, t₁, σ₁) => evalP fuel t₁ σ₁ b
      | (.error e', t₁, σ₁) => (.error e', t₁, σ₁)
    | .isE a b =>
      match evalP fuel t σ a with
      | (.ok va, t₁, σ₁) =>
        match evalP fuel t₁ σ₁ b with
        | (.ok vb, t₂, σ₂) => (.ok (.bool (decide (va = vb))), t₂, σ₂)
        | (.error e', t₂, σ₂) => (.error e', t₂, σ₂)
      | (.error e', t₁, σ₁) => (.error e', t₁, σ₁)

end

/-- The loop of `ServiceContainerTransaction._create_transaction`:
starting from a copy of the current params, add the incoming params
one by one, raising on a key that is already present. -/
def mergeParams : List (String × Value) → List (String × Value) →
    Except Err (List (String × Value))
  | acc, [] => .ok acc
  | acc, (k, v) :: rest =>
    if (alookup acc k).isSome then .error (.paramOverride k)
    else mergeParams (acc ++ [(k, v)]) rest

/-- Models `ServiceContainerTransaction._create_transaction(params)`:
merge the incoming params into a copy of the current ones (raising on
an existing key), and produce a new transaction with a copy of the
provider mapping, a copy of the cache, and the merged params. -/
def tx_create_transaction (t : ServiceContainerTransaction)
    (params : List (String × Value)) : Except Err ServiceContainerTransaction :=
  match mergeParams t.params params with
  | .ok newParams =>
    .ok { service_providers := t.service_providers, services := t.services, params := newParams }
  | .error e => .error e

/-- Models `ServiceContainer._create_transaction(params)`: a new empty
transaction over a copy of the provider mapping. -/
def sc_create_transaction (c : ServiceContainer) (params : List (String × Value)) :
    ServiceContainerTransaction :=
  { service_providers := c.service_providers, services := [], params := params }

/-- Models `ServiceContainer.__getattr__(name)`: create an implicit
empty transaction with no params, resolve `name` on it, and discard
the transaction, keeping only the result (and, in the model, the
allocation counter). -/
def sc_getattr (fuel : Nat) (c : ServiceContainer) (σ : Nat) (name : String) :
    Except Err Value × Nat :=
  match tx_getattr fuel (sc_create_transaction c []) σ name with
  | (r, _, σ₁) => (r, σ₁)

/-- Models `ServiceContainer.__enter__`: a new empty transaction with
no params. -/
def sc_enter (c : ServiceContainer) : ServiceContainerTransaction :=
  sc_create_transaction c []

/-- Models `ServiceContainer.__call__(**params)` (the context manager
body): a new transaction seeded with the given params. -/
def sc_call (c : ServiceContainer) (params : List (String × Value)) :
    ServiceContainerTransaction :=
  sc_create_transaction c params


/-- `occursSvc m e` holds when the body `e` contains a nested service
lookup of `m`. -/
def occursSvc (m : String) : PExp → Bool
  | .getSvc n => m == n
  | .seqE a b => occursSvc m a || occursSvc m b
  | .isE a b => occursSvc m a || occursSvc m b
  | _ => false

/-- `Reaches P e m`: starting from body `e`, the name `m` is reachable
through nested service lookups, following one-argument provider bodies
registered in `P`. -/
inductive Reaches (P : List (String × Provider)) : PExp → String → Prop where
  | here {e : PExp} {m : String} : occursSvc m e = true → Reaches P e m
  | step {e : PExp} {k : String} {b : PExp} {m : String} :
      occursSvc k e = true → alookup P k = some (.fn1 b) → Reaches P b m → Reaches P e m

/-- Live reachability relative to a transaction state: like `Reaches`
over the transaction's provider mapping, but following an edge into a
registered body only when the provider's own name is still uncached.
A cached name is answered from the cache forever after (the cache only
grows), so the body of a cached name can never run again: live
reachability soundly over-approximates which names an evaluation can
still resolve. -/
inductive LiveReach (t : ServiceContainerTransaction) : PExp → String → Prop where
  | here {e : PExp} {m : String} : occursSvc m e = true → LiveReach t e m
  | step {e : PExp} {k : String} {b : PExp} {m : String} :
      occursSvc k e = true → alookup t.services k = none →
      alookup t.service_providers k = some (.fn1 b) → LiveReach t b m → LiveReach t e m

/-- All names of `S` are uncached in `t`. -/
def okS (t : ServiceContainerTransaction) (S : List String) : Prop :=
  ∀ m ∈ S, alookup t.services m = none

/-- Every name of `S` is bound to a one-argument provider whose body
mentions a name of `S`.  Resolving any member of such a set while the
whole set is uncached keeps re-entering the set and can never
complete. -/
def selfSupporting (t : ServiceContainerTransaction) (S : List String) : Prop :=
  ∀ m ∈ S, ∃ b, alookup t.service_providers m = some (.fn1 b) ∧
    ∃ m' ∈ S, occursSvc m' b = true

/-! ### Concrete fixtures used by the claim witnesses -/

/-- A container with a single object-allocating provider. -/
def objContainer : ServiceContainer :=
  ⟨[("obj", .fn0 .newObj)]⟩

/-- A fresh transaction of `objContainer`. -/
def objTxn : ServiceContainerTransaction :=
  ⟨[("obj", .fn0 .newObj)], [], []⟩

/-- The transaction of `objContainer` after "obj" has been resolved
once (from allocation counter 0). -/
def objTxnCached : ServiceContainerTransaction :=
  ⟨[("obj", .fn0 .newObj)], [("obj", .obj 0)], []⟩

/-- The cyclic container of the circular-dependency regression test:
`foo` resolves `bar` and `bar` resolves `foo`. -/
def cycContainer : ServiceContainer :=
  ⟨[("foo", .fn1 (.getSvc "bar")), ("bar", .fn1 (.getSvc "foo"))]⟩

/-- A parent transaction with a name already cached and an unresolved
object-allocating provider, used for the fork witness. -/
def forkTxn : ServiceContainerTransaction :=
  ⟨[("obj", .fn0 .newObj)], [("done", .vnat 7)], []⟩

/-- A transaction carrying the param `lang = "cz"` of the params
regression test. -/
def langTxn : ServiceContainerTransaction :=
  ⟨[], [], [("lang", .str "cz")]⟩

/-- The transaction of the provider-failure regression test, hardened:
`foo` raises "Nope" before a nested lookup of `foo` itself that is
therefore never executed. -/
def failTxn : ServiceContainerTransaction :=
  ⟨[("foo", .fn1 (.seqE (.raiseE "Nope") (.getSvc "foo")))], [], []⟩

/-- A transaction with one provider of each declared parameter count
(0, 1 and 2). -/
def arityTxn : ServiceContainerTransaction :=
  ⟨[("a", .fn0 (.lit (.vnat 1))), ("b", .fn1 (.lit (.vnat 2))), ("c", .fnN 2)], [], []⟩

/-- A transaction with a single registered provider, used for the
missing-provider witness. -/
def missTxn : ServiceContainerTransaction :=
  ⟨[("foo", .fn0 (.lit (.vnat 1)))], [], []⟩

/-- A transaction whose provider reads the param "lang". -/
def paramTxn : ServiceContainerTransaction :=
  ⟨[("foo", .fn1 (.param "lang"))], [], [("lang", .str "cz")]⟩

/-- A transaction binding "foo" to the non-callable value 42. -/
def ncTxn : ServiceContainerTransaction :=
  ⟨[("foo", .notCallable "42")], [], []⟩

/-! ### Association-list lemmas -/

theorem alookup_append {α : Type} (l₁ l₂ : List (String × α)) (key : String) :
    alookup (l₁ ++ l₂) key =
      match alookup l₁ key with
      | some v => some v
      | none => alookup l₂ key := by
  induction l₁ with
  | nil => simp [alookup]
  | cons p rest ih =>
    obtain ⟨k, v⟩ := p
    by_cases h : key = k <;> simp [alookup, h, ih]

theorem alookup_dictReplace_self {α : Type} (l : List (String × α)) (k : String) (v : α)
    (hsome : (alookup l k).isSome) : alookup (dictReplace l k v) k = some v := by
  induction l with
  | nil => simp [alookup] at hsome
  | cons p rest ih =>
    obtain ⟨k', v'⟩ := p
    by_cases h : k' = k
    · subst h; simp [dictReplace, alookup]
    · have h' : ¬ k = k' := fun hh => h hh.symm
      simp [alookup, dictReplace, h, h'] at hsome ⊢
      exact ih hsome

theorem alookup_dictReplace_ne {α : Type} (l : List (String × α)) (k key : String) (v : α)
    (hne : key ≠ k) : alookup (dictReplace l k v) key = alookup l key := by
  induction l with
  | nil => simp [dictReplace]
  | cons p rest ih =>
    obtain ⟨k', v'⟩ := p
    by_cases h : k' = k
    · subst h
      simp [dictReplace, alookup, hne, ih]
    · by_cases h2 : key = k' <;> simp [dictReplace, alookup, h, h2, ih]

theorem alookup_dictInsert_self {α : Type} (l : List (String × α)) (k : String) (v : α) :
    alookup (dictInsert l k v) k = some v := by
  unfold dictInsert
  split
  · next hsome => exact alookup_dictReplace_self l k v hsome
  · next hnone =>
    rw [alookup_append]
    cases h : alookup l k with
    | none => simp [alookup]
    | some w => simp [h] at hnone

theorem alookup_dictInsert_ne {α : Type} (l : List (String × α)) (k key : String) (v : α)
    (hne : key ≠ k) : alookup (dictInsert l k v) key = alookup l key := by
  unfold dictInsert
  split
  · exact alookup_dictReplace_ne l k key v hne
  · rw [alookup_append]
    cases h : alookup l key with
    | none => simp [alookup, hne]
    | some w => simp

/-! ### Frame lemma: resolution never changes the provider mapping or
the params of the transaction it runs on. -/

/-- Combined frame property for the three mutually recursive
resolution functions, proved by strong induction on fuel. -/
theorem resolution_frame : ∀ fuel : Nat,
    (∀ t σ n r t' σ', tx_getattr fuel t σ n = (r, t', σ') →
      t'.service_providers = t.service_providers ∧ t'.params = t.params) ∧
    (∀ t σ n r t' σ', tx_get_service fuel t σ n = (r, t', σ') →
      t'.service_providers = t.service_providers ∧ t'.params = t.params) ∧
    (∀ t σ e r t' σ', evalP fuel t σ e = (r, t', σ') →
      t'.service_providers = t.service_providers ∧ t'.params = t.params) := by
  intro fuel
  induction fuel using Nat.strong_induction_on with
  | _ fuel ih =>
    match fuel with
    | 0 =>
      refine ⟨?_, ?_, ?_⟩ <;>
        · intro t σ x r t' σ' h
          simp only [tx_getattr, tx_get_service, evalP, Prod.mk.injEq] at h
          obtain ⟨-, h2, -⟩ := h
          subst h2
          exact ⟨rfl, rfl⟩
    | fuel + 1 =>
      have ihg := (ih fuel (Nat.lt_succ_self fuel)).1
      have ihs := (ih fuel (Nat.lt_succ_self fuel)).2.1
      have ihe := (ih fuel (Nat.lt_succ_self fuel)).2.2
      refine ⟨?_, ?_, ?_⟩
      · -- tx_getattr
        intro t σ n r t' σ' h
        simp only [tx_getattr] at h
        split at h
        · simp only [Prod.mk.injEq] at h
          obtain ⟨-, h2, -⟩ := h
          subst h2
          exact ⟨rfl, rfl⟩
        · split at h <;> rename_i heq
          · simp only [Prod.mk.injEq] at h
            obtain ⟨-, h2, -⟩ := h
            subst h2
            simpa using ihs t σ n _ _ _ heq
          · simp only [Prod.mk.injEq] at h
            obtain ⟨-, h2, -⟩ := h
            subst h2
            exact ihs t σ n _ _ _ heq
      · -- tx_get_service
        intro t σ n r t' σ' h
        simp only [tx_get_service] at h
        split at h <;>
          first
            | (simp only [Prod.mk.injEq] at h
               obtain ⟨-, h2, -⟩ := h
               subst h2
               exact ⟨rfl, rfl⟩)
            | skip
        · -- fn1 case
          exact ihe t σ _ _ _ _ h
      · -- evalP
        intro t σ e r t' σ' h
        simp only [evalP] at h
        split at h
        · -- lit
          simp only [Prod.mk.injEq] at h
          obtain ⟨-, h2, -⟩ := h
          subst h2
          exact ⟨rfl, rfl⟩
        · -- newObj
          simp only [Prod.mk.injEq] at h
          obtain ⟨-, h2, -⟩ := h
          subst h2
          exact ⟨rfl, rfl⟩
        · -- raiseE
          simp only [Prod.mk.injEq] at h
          obtain ⟨-, h2, -⟩ := h
          subst h2
          exact ⟨rfl, rfl⟩
        · -- param, found
          split at h <;>
            · simp only [Prod.mk.injEq] at h
              obtain ⟨-, h2, -⟩ := h
              subst h2
              exact ⟨rfl, rfl⟩
        · -- getSvc
          exact ihg t σ _ _ _ _ h
        · -- seqE
          split at h <;> rename_i heq
          · have h1 := ihe t σ _ _ _ _ heq
            have h2 := ihe _ _ _ _ _ _ h
            exact ⟨h2.1.trans h1.1, h2.2.trans h1.2⟩
          · simp only [Prod.mk.injEq] at h
            obtain ⟨-, h2, -⟩ := h
            subst h2
            exact ihe t σ _ _ _ _ heq
        · -- isE
          split at h <;> rename_i heq
          · split at h <;> rename_i heq2
            · have h1 := ihe t σ _ _ _ _ heq
              have h2 := ihe _ _ _ _ _ _ heq2
              simp only [Prod.mk.injEq] at h
              obtain ⟨-, h3, -⟩ := h
              subst h3
              exact ⟨h2.1.trans h1.1, h2.2.trans h1.2⟩
            · have h1 := ihe t σ _ _ _ _ heq
              have h2 := ihe _ _ _ _ _ _ heq2
              simp only [Prod.mk.injEq] at h
              obtain ⟨-, h3, -⟩ := h
              subst h3
              exact ⟨h2.1.trans h1.1, h2.2.trans h1.2⟩
          · simp only [Prod.mk.injEq] at h
            obtain ⟨-, h2, -⟩ := h
            subst h2
            exact ihe t σ _ _ _ _ heq

/-- Frame corollary for `tx_getattr` alone. -/
theorem tx_getattr_frame {fuel : Nat} {t : ServiceContainerTransaction} {σ : Nat}
    {n : String} {r : Except Err Value} {t' : ServiceContainerTransaction} {σ' : Nat}
    (h : tx_getattr fuel t σ n = (r, t', σ')) :
    t'.service_providers = t.service_providers ∧ t'.params = t.params :=
  (resolution_frame fuel).1 t σ n r t' σ' h

/-! ### Cache behaviour of `__getattr__` -/

/-- After a successful lookup, the instance is cached under the
requested name. -/
theorem tx_getattr_caches {fuel : Nat} {t : ServiceContainerTransaction} {σ : Nat}
    {n : String} {v : Value} {t' : ServiceContainerTransaction} {σ' : Nat}
    (h : tx_getattr fuel t σ n = (.ok v, t', σ')) :
    alookup t'.services n = some v := by
  match fuel with
  | 0 =>
    simp only [tx_getattr, Prod.mk.injEq] at h
    exact absurd h.1 (by simp)
  | fuel + 1 =>
    simp only [tx_getattr] at h
    split at h
    · next v0 hs =>
      simp only [Prod.mk.injEq, Except.ok.injEq] at h
      obtain ⟨h1, h2, -⟩ := h
      subst h1; subst h2
      exact hs
    · split at h <;> rename_i heq
      · simp only [Prod.mk.injEq, Except.ok.injEq] at h
        obtain ⟨h1, h2, -⟩ := h
        subst h1; subst h2
        exact alookup_dictInsert_self _ _ _
      · simp only [Prod.mk.injEq] at h
        exact absurd h.1 (by simp)

/-- A cached name is returned as is, with no state change. -/
theorem tx_getattr_cache_hit {t : ServiceContainerTransaction} {n : String} {v : Value}
    (hs : alookup t.services n = some v) (g σ : Nat) :
    tx_getattr (g + 1) t σ n = (.ok v, t, σ) := by
  simp only [tx_getattr, hs]

/-- Resolution of an uncached name bound to a zero-argument provider
that allocates a fresh object: it returns the object carrying the
current allocation counter and caches it. -/
theorem tx_getattr_fn0_newObj {t : ServiceContainerTransaction} {m : String}
    (hs : alookup t.services m = none)
    (hp : alookup t.service_providers m = some (.fn0 .newObj)) (f σ : Nat) :
    tx_getattr (f + 2) t σ m =
      (.ok (.obj σ), { t with services := dictInsert t.services m (.obj σ) }, σ + 1) := by
  simp only [tx_getattr, tx_get_service, invoke0, hs, hp]

/-! ### Lemmas about the fork param merge -/

/-- When `mergeParams` succeeds, the result is exactly the current
params followed by the incoming ones, in order. -/
theorem mergeParams_ok_eq : ∀ (p acc out : List (String × Value)),
    mergeParams acc p = .ok out → out = acc ++ p := by
  intro p
  induction p with
  | nil =>
    intro acc out h
    simp only [mergeParams, Except.ok.injEq] at h
    simp [h]
  | cons kv rest ih =>
    intro acc out h
    obtain ⟨k, v⟩ := kv
    simp only [mergeParams] at h
    split at h
    · exact absurd h (by simp)
    · have := ih (acc ++ [(k, v)]) out h
      simp [this]

/-- When no incoming key is already present (and the incoming keys are
distinct, as they are for Python kwargs), `mergeParams` succeeds and
appends all incoming params. -/
theorem mergeParams_disjoint : ∀ (p acc : List (String × Value)),
    (p.map Prod.fst).Nodup →
    (∀ k v, (k, v) ∈ p → alookup acc k = none) →
    mergeParams acc p = .ok (acc ++ p) := by
  intro p
  induction p with
  | nil => intro acc _ _; simp [mergeParams]
  | cons kv rest ih =>
    intro acc hnd hdisj
    obtain ⟨k, v⟩ := kv
    simp only [List.map_cons, List.nodup_cons, List.mem_map] at hnd
    obtain ⟨hknotin, hndrest⟩ := hnd
    have hk : alookup acc k = none := hdisj k v (by simp)
    have hrest : ∀ k' v', (k', v') ∈ rest → alookup (acc ++ [(k, v)]) k' = none := by
      intro k' v' hmem
      have h1 : alookup acc k' = none := hdisj k' v' (by simp [hmem])
      have hne : k' ≠ k := by
        intro hkk
        exact hknotin ⟨(k', v'), hmem, by simp [hkk]⟩
      rw [alookup_append, h1]
      simp [alookup, hne]
    have hmerge := ih (acc ++ [(k, v)]) hndrest hrest
    simp only [mergeParams, hk, Option.isSome_none, Bool.false_eq_true, if_false]
    rw [hmerge]
    simp

/-- When some incoming key is already present (incoming keys distinct),
`mergeParams` fails with a Param Override error naming an offending
key. -/
theorem mergeParams_collision : ∀ (p acc : List (String × Value)),
    (p.map Prod.fst).Nodup →
    (∃ kv ∈ p, (alookup acc kv.1).isSome) →
    ∃ k, (∃ v, (k, v) ∈ p) ∧ (alookup acc k).isSome ∧
      mergeParams acc p = .error (.paramOverride k) := by
  intro p
  induction p with
  | nil => intro acc _ h; obtain ⟨kv, hmem, -⟩ := h; simp at hmem
  | cons kv rest ih =>
    intro acc hnd hcol
    obtain ⟨k, v⟩ := kv
    simp only [List.map_cons, List.nodup_cons, List.mem_map] at hnd
    obtain ⟨hknotin, hndrest⟩ := hnd
    by_cases hk : (alookup acc k).isSome
    · exact ⟨k, ⟨v, by simp⟩, hk, by simp [mergeParams, hk]⟩
    · have hknone : alookup acc k = none := by
        cases h : alookup acc k with
        | none => rfl
        | some w => simp [h] at hk
      obtain ⟨⟨k0, v0⟩, hmem, hsome⟩ := hcol
      have hmemrest : (k0, v0) ∈ rest := by
        rcases List.mem_cons.mp hmem with heq | h
        · exfalso
          rw [Prod.mk.injEq] at heq
          rw [heq.1] at hsome
          simp [hknone] at hsome
        · exact h
      have hcol' : ∃ kv ∈ rest, (alookup (acc ++ [(k, v)]) kv.1).isSome := by
        refine ⟨(k0, v0), hmemrest, ?_⟩
        rw [alookup_append]
        cases h : alookup acc k0 with
        | none => simp [h] at hsome
        | some w => simp
      obtain ⟨k1, ⟨v1, hmem1⟩, hsome1, hmerge1⟩ := ih (acc ++ [(k, v)]) hndrest hcol'
      refine ⟨k1, ⟨v1, by simp [hmem1]⟩, ?_, ?_⟩
      · rw [alookup_append] at hsome1
        cases h : alookup acc k1 with
        | some w => simp
        | none =>
          rw [h] at hsome1
          have hne : k1 ≠ k := by
            intro hkk
            exact hknotin ⟨(k1, v1), hmem1, by simp [hkk]⟩
          simp [alookup, hne] at hsome1
      · simp [mergeParams, hknone, hmerge1]

/-! ### Cyclic dependencies exhaust the recursion limit -/

/-- A pair of providers, each resolving the other, never completes:
whatever the recursion limit (fuel), resolving either name returns the
recursion-limit error, leaves the transaction unchanged and allocates
nothing. -/
theorem cycle_pair_recursion : ∀ (fuel : Nat) (t : ServiceContainerTransaction)
    (σ : Nat) (n₁ n₂ : String),
    alookup t.service_providers n₁ = some (.fn1 (.getSvc n₂)) →
    alookup t.service_providers n₂ = some (.fn1 (.getSvc n₁)) →
    alookup t.services n₁ = none →
    alookup t.services n₂ = none →
    tx_getattr fuel t σ n₁ = (.error .recursionError, t, σ) := by
  intro fuel
  induction fuel using Nat.strong_induction_on with
  | _ fuel ih =>
    match fuel with
    | 0 =>
      intro t σ n₁ n₂ h1 h2 hs1 hs2
      simp [tx_getattr]
    | 1 =>
      intro t σ n₁ n₂ h1 h2 hs1 hs2
      simp [tx_getattr, tx_get_service, hs1]
    | 2 =>
      intro t σ n₁ n₂ h1 h2 hs1 hs2
      simp [tx_getattr, tx_get_service, evalP, hs1, h1]
    | g + 3 =>
      intro t σ n₁ n₂ h1 h2 hs1 hs2
      have ihg := ih g (by omega) t σ n₂ n₁ h2 h1 hs2 hs1
      simp [tx_getattr, tx_get_service, evalP, hs1, h1, ihg]

/-! ### Which names can an evaluation cache?

For claim C6 ("a failed resolution caches nothing for the requested
name") we show that a provider-body evaluation can only add cache
entries for names reachable from that body through the static provider
graph; the outer `__getattr__` then adds its own name only on success. -/

/-- Reachability only inspects the names occurring at the top of the
body, so it lifts along any occurrence-preserving body change. -/
theorem Reaches_of_occurs_imp {P : List (String × Provider)} {e e' : PExp} {m : String}
    (h : ∀ k, occursSvc k e = true → occursSvc k e' = true) :
    Reaches P e m → Reaches P e' m := by
  intro hr
  cases hr with
  | here ho => exact .here (h _ ho)
  | step ho hp hb => exact .step (h _ ho) hp hb

theorem Reaches_seq_left {P : List (String × Provider)} {a b : PExp} {m : String}
    (h : Reaches P a m) : Reaches P (.seqE a b) m :=
  Reaches_of_occurs_imp (fun k hk => by simp [occursSvc, hk]) h

theorem Reaches_seq_right {P : List (String × Provider)} {a b : PExp} {m : String}
    (h : Reaches P b m) : Reaches P (.seqE a b) m :=
  Reaches_of_occurs_imp (fun k hk => by simp [occursSvc, hk]) h

theorem Reaches_isE_left {P : List (String × Provider)} {a b : PExp} {m : String}
    (h : Reaches P a m) : Reaches P (.isE a b) m :=
  Reaches_of_occurs_imp (fun k hk => by simp [occursSvc, hk]) h

theorem Reaches_isE_right {P : List (String × Provider)} {a b : PExp} {m : String}
    (h : Reaches P b m) : Reaches P (.isE a b) m :=
  Reaches_of_occurs_imp (fun k hk => by simp [occursSvc, hk]) h

/-- Combined insertion-closure property: any name newly cached by a
resolution step is either the requested name itself (for
`tx_getattr`) or reachable from the invoked provider body. -/
theorem resolution_inserts_reachable : ∀ fuel : Nat,
    (∀ t σ n r t' σ' m, tx_getattr fuel t σ n = (r, t', σ') →
      alookup t.services m = none → (alookup t'.services m).isSome →
      m = n ∨ ∃ b, alookup t.service_providers n = some (.fn1 b) ∧
        Reaches t.service_providers b m) ∧
    (∀ t σ n r t' σ' m, tx_get_service fuel t σ n = (r, t', σ') →
      alookup t.services m = none → (alookup t'.services m).isSome →
      ∃ b, alookup t.service_providers n = some (.fn1 b) ∧
        Reaches t.service_providers b m) ∧
    (∀ t σ e r t' σ' m, evalP fuel t σ e = (r, t', σ') →
      alookup t.services m = none → (alookup t'.services m).isSome →
      Reaches t.service_providers e m) := by
  intro fuel
  induction fuel using Nat.strong_induction_on with
  | _ fuel ih =>
    match fuel with
    | 0 =>
      refine ⟨?_, ?_, ?_⟩ <;>
        · intro t σ x r t' σ' m h hnone hsome
          simp only [tx_getattr, tx_get_service, evalP, Prod.mk.injEq] at h
          obtain ⟨-, h2, -⟩ := h
          subst h2
          simp [hnone] at hsome
    | fuel + 1 =>
      have ihg := (ih fuel (Nat.lt_succ_self fuel)).1
      have ihs := (ih fuel (Nat.lt_succ_self fuel)).2.1
      have ihe := (ih fuel (Nat.lt_succ_self fuel)).2.2
      refine ⟨?_, ?_, ?_⟩
      · -- tx_getattr
        intro t σ n r t' σ' m h hnone hsome
        simp only [tx_getattr] at h
        split at h
        · simp only [Prod.mk.injEq] at h
          obtain ⟨-, h2, -⟩ := h
          subst h2
          simp [hnone] at hsome
        · split at h <;> rename_i w1 t₁ σ₁ heq <;> simp only [Prod.mk.injEq] at h <;>
            obtain ⟨-, h2, -⟩ := h <;> subst h2
          · -- success: cache extended with the requested name
            by_cases hmn : m = n
            · exact Or.inl hmn
            · replace hsome : (alookup (dictInsert t₁.services n w1) m).isSome = true := hsome
              rw [alookup_dictInsert_ne _ _ _ _ hmn] at hsome
              exact Or.inr (ihs t σ n _ _ _ m heq hnone hsome)
          · -- failure: state is the one returned by _get_service
            exact Or.inr (ihs t σ n _ _ _ m heq hnone hsome)
      · -- tx_get_service
        intro t σ n r t' σ' m h hnone hsome
        simp only [tx_get_service] at h
        split at h <;> rename_i hprov
        · simp only [Prod.mk.injEq] at h
          obtain ⟨-, h2, -⟩ := h; subst h2
          simp [hnone] at hsome
        · simp only [Prod.mk.injEq] at h
          obtain ⟨-, h2, -⟩ := h; subst h2
          simp [hnone] at hsome
        · simp only [Prod.mk.injEq] at h
          obtain ⟨-, h2, -⟩ := h; subst h2
          simp [hnone] at hsome
        · rename_i body
          exact ⟨body, hprov, ihe t σ body _ _ _ m h hnone hsome⟩
        · simp only [Prod.mk.injEq] at h
          obtain ⟨-, h2, -⟩ := h; subst h2
          simp [hnone] at hsome
      · -- evalP
        intro t σ e r t' σ' m h hnone hsome
        simp only [evalP] at h
        split at h
        · -- lit
          simp only [Prod.mk.injEq] at h
          obtain ⟨-, h2, -⟩ := h; subst h2
          simp [hnone] at hsome
        · -- newObj
          simp only [Prod.mk.injEq] at h
          obtain ⟨-, h2, -⟩ := h; subst h2
          simp [hnone] at hsome
        · -- raiseE
          simp only [Prod.mk.injEq] at h
          obtain ⟨-, h2, -⟩ := h; subst h2
          simp [hnone] at hsome
        · -- param
          split at h <;>
            · simp only [Prod.mk.injEq] at h
              obtain ⟨-, h2, -⟩ := h; subst h2
              simp [hnone] at hsome
        · -- getSvc
          rename_i k
          rcases ihg t σ k _ _ _ m h hnone hsome with hmk | ⟨b, hpb, hrb⟩
          · subst hmk
            exact .here (by simp [occursSvc])
          · exact .step (by simp [occursSvc]) hpb hrb
        · -- seqE
          rename_i a b
          split at h <;> rename_i va t₁ σ₁ heq
          · cases hm1 : alookup t₁.services m with
            | some w =>
              exact Reaches_seq_left (ihe t σ a _ _ _ m heq hnone (by simp [hm1]))
            | none =>
              have hr := ihe t₁ σ₁ b _ _ _ m h hm1 hsome
              have hfr := ((resolution_frame fuel).2.2 t σ a _ _ _ heq).1
              rw [hfr] at hr
              exact Reaches_seq_right hr
          · simp only [Prod.mk.injEq] at h
            obtain ⟨-, h2, -⟩ := h; subst h2
            exact Reaches_seq_left (ihe t σ a _ _ _ m heq hnone hsome)
        · -- isE
          rename_i a b
          split at h <;> rename_i va t₁ σ₁ heq
          · split at h <;> rename_i vb t₂ σ₂ heq2 <;>
              simp only [Prod.mk.injEq] at h <;>
              obtain ⟨-, h2, -⟩ := h <;> subst h2
            · cases hm1 : alookup t₁.services m with
              | some w =>
                exact Reaches_isE_left (ihe t σ a _ _ _ m heq hnone (by simp [hm1]))
              | none =>
                have hr := ihe t₁ σ₁ b _ _ _ m heq2 hm1 hsome
                have hfr := ((resolution_frame fuel).2.2 t σ a _ _ _ heq).1
                rw [hfr] at hr
                exact Reaches_isE_right hr
            · cases hm1 : alookup t₁.services m with
              | some w =>
                exact Reaches_isE_left (ihe t σ a _ _ _ m heq hnone (by simp [hm1]))
              | none =>
                have hr := ihe t₁ σ₁ b _ _ _ m heq2 hm1 hsome
                have hfr := ((resolution_frame fuel).2.2 t σ a _ _ _ heq).1
                rw [hfr] at hr
                exact Reaches_isE_right hr
          · simp only [Prod.mk.injEq] at h
            obtain ⟨-, h2, -⟩ := h; subst h2
            exact Reaches_isE_left (ihe t σ a _ _ _ m heq hnone hsome)

/-! ### Cache keys only grow -/

theorem alookup_dictInsert_isSome {α : Type} (l : List (String × α)) (k k' : String) (v : α)
    (h : (alookup l k').isSome) : (alookup (dictInsert l k v) k').isSome := by
  by_cases hk : k' = k
  · subst hk
    simp [alookup_dictInsert_self]
  · rwa [alookup_dictInsert_ne _ _ _ _ hk]

/-- Combined key-monotonicity: a resolution step never removes a cache
entry, it can only add or update entries. -/
theorem resolution_key_monotone : ∀ fuel : Nat,
    (∀ t σ n r t' σ', tx_getattr fuel t σ n = (r, t', σ') →
      ∀ k, (alookup t.services k).isSome → (alookup t'.services k).isSome) ∧
    (∀ t σ n r t' σ', tx_get_service fuel t σ n = (r, t', σ') →
      ∀ k, (alookup t.services k).isSome → (alookup t'.services k).isSome) ∧
    (∀ t σ e r t' σ', evalP fuel t σ e = (r, t', σ') →
      ∀ k, (alookup t.services k).isSome → (alookup t'.services k).isSome) := by
  intro fuel
  induction fuel using Nat.strong_induction_on with
  | _ fuel ih =>
    match fuel with
    | 0 =>
      refine ⟨?_, ?_, ?_⟩ <;>
        · intro t σ x r t' σ' h
          simp only [tx_getattr, tx_get_service, evalP, Prod.mk.injEq] at h
          obtain ⟨-, h2, -⟩ := h
          subst h2
          exact fun k hk => hk
    | fuel + 1 =>
      have ihg := (ih fuel (Nat.lt_succ_self fuel)).1
      have ihs := (ih fuel (Nat.lt_succ_self fuel)).2.1
      have ihe := (ih fuel (Nat.lt_succ_self fuel)).2.2
      refine ⟨?_, ?_, ?_⟩
      · -- tx_getattr
        intro t σ n r t' σ' h
        simp only [tx_getattr] at h
        split at h
        · simp only [Prod.mk.injEq] at h
          obtain ⟨-, h2, -⟩ := h
          subst h2
          exact fun k hk => hk
        · split at h <;> rename_i w1 t₁ σ₁ heq <;> simp only [Prod.mk.injEq] at h <;>
            obtain ⟨-, h2, -⟩ := h <;> subst h2
          · intro k hk
            exact alookup_dictInsert_isSome _ _ _ _ (ihs t σ n _ _ _ heq k hk)
          · exact ihs t σ n _ _ _ heq
      · -- tx_get_service
        intro t σ n r t' σ' h
        simp only [tx_get_service] at h
        split at h <;>
          first
            | (simp only [Prod.mk.injEq] at h
               obtain ⟨-, h2, -⟩ := h
               subst h2
               exact fun k hk => hk)
            | exact ihe t σ _ _ _ _ h
      · -- evalP
        intro t σ e r t' σ' h
        simp only [evalP] at h
        split at h
        · simp only [Prod.mk.injEq] at h
          obtain ⟨-, h2, -⟩ := h; subst h2
          exact fun k hk => hk
        · simp only [Prod.mk.injEq] at h
          obtain ⟨-, h2, -⟩ := h; subst h2
          exact fun k hk => hk
        · simp only [Prod.mk.injEq] at h
          obtain ⟨-, h2, -⟩ := h; subst h2
          exact fun k hk => hk
        · split at h <;>
            · simp only [Prod.mk.injEq] at h
              obtain ⟨-, h2, -⟩ := h; subst h2
              exact fun k hk => hk
        · exact ihg t σ _ _ _ _ h
        · -- seqE
          split at h <;> rename_i va t₁ σ₁ heq
          · intro k hk
            exact ihe _ _ _ _ _ _ h k (ihe t σ _ _ _ _ heq k hk)
          · simp only [Prod.mk.injEq] at h
            obtain ⟨-, h2, -⟩ := h; subst h2
            exact ihe t σ _ _ _ _ heq
        · -- isE
          split at h <;> rename_i va t₁ σ₁ heq
          · split at h <;> rename_i vb t₂ σ₂ heq2 <;>
              simp only [Prod.mk.injEq] at h <;>
              obtain ⟨-, h2, -⟩ := h <;> subst h2 <;>
              · intro k hk
                exact ihe _ _ _ _ _ _ heq2 k (ihe t σ _ _ _ _ heq k hk)
          · simp only [Prod.mk.injEq] at h
            obtain ⟨-, h2, -⟩ := h; subst h2
            exact ihe t σ _ _ _ _ heq

/-! ### Live reachability lemmas -/

theorem LiveReach_of_occurs_imp {t : ServiceContainerTransaction} {e e' : PExp} {m : String}
    (h : ∀ k, occursSvc k e = true → occursSvc k e' = true) :
    LiveReach t e m → LiveReach t e' m := by
  intro hr
  cases hr with
  | here ho => exact .here (h _ ho)
  | step ho hu hp hb => exact .step (h _ ho) hu hp hb

theorem LiveReach_seq_left {t : ServiceContainerTransaction} {a b : PExp} {m : String}
    (h : LiveReach t a m) : LiveReach t (.seqE a b) m :=
  LiveReach_of_occurs_imp (fun k hk => by simp [occursSvc, hk]) h

theorem LiveReach_seq_right {t : ServiceContainerTransaction} {a b : PExp} {m : String}
    (h : LiveReach t b m) : LiveReach t (.seqE a b) m :=
  LiveReach_of_occurs_imp (fun k hk => by simp [occursSvc, hk]) h

theorem LiveReach_isE_left {t : ServiceContainerTransaction} {a b : PExp} {m : String}
    (h : LiveReach t a m) : LiveReach t (.isE a b) m :=
  LiveReach_of_occurs_imp (fun k hk => by simp [occursSvc, hk]) h

theorem LiveReach_isE_right {t : ServiceContainerTransaction} {a b : PExp} {m : String}
    (h : LiveReach t b m) : LiveReach t (.isE a b) m :=
  LiveReach_of_occurs_imp (fun k hk => by simp [occursSvc, hk]) h

/-- Live reachability is antitone in the cache: what is live from a
later state (same providers, at least the same cache keys) was already
live from the earlier one. -/
theorem LiveReach_antitone {t u : ServiceContainerTransaction} {e : PExp} {m : String}
    (hp : u.service_providers = t.service_providers)
    (hk : ∀ k, (alookup t.services k).isSome → (alookup u.services k).isSome)
    (h : LiveReach u e m) : LiveReach t e m := by
  induction h with
  | here ho => exact .here ho
  | @step e' k b m' ho hu hpr hrec ih =>
    rw [hp] at hpr
    refine .step ho ?_ hpr ih
    cases hc : alookup t.services k with
    | none => rfl
    | some w =>
      have h2 := hk k (by simp [hc])
      simp [hu] at h2

/-- Live insertion closure: any name newly cached by a resolution step
is either the requested name itself (for `tx_getattr`, which also
certifies the requested name was uncached at entry when it recursed)
or live-reachable from the invoked provider body. -/
theorem resolution_inserts_live : ∀ fuel : Nat,
    (∀ t σ n r t' σ' m, tx_getattr fuel t σ n = (r, t', σ') →
      alookup t.services m = none → (alookup t'.services m).isSome →
      m = n ∨ (alookup t.services n = none ∧
        ∃ b, alookup t.service_providers n = some (.fn1 b) ∧ LiveReach t b m)) ∧
    (∀ t σ n r t' σ' m, tx_get_service fuel t σ n = (r, t', σ') →
      alookup t.services m = none → (alookup t'.services m).isSome →
      ∃ b, alookup t.service_providers n = some (.fn1 b) ∧ LiveReach t b m) ∧
    (∀ t σ e r t' σ' m, evalP fuel t σ e = (r, t', σ') →
      alookup t.services m = none → (alookup t'.services m).isSome →
      LiveReach t e m) := by
  intro fuel
  induction fuel using Nat.strong_induction_on with
  | _ fuel ih =>
    match fuel with
    | 0 =>
      refine ⟨?_, ?_, ?_⟩ <;>
        · intro t σ x r t' σ' m h hnone hsome
          simp only [tx_getattr, tx_get_service, evalP, Prod.mk.injEq] at h
          obtain ⟨-, h2, -⟩ := h
          subst h2
          simp [hnone] at hsome
    | fuel + 1 =>
      have ihg := (ih fuel (Nat.lt_succ_self fuel)).1
      have ihs := (ih fuel (Nat.lt_succ_self fuel)).2.1
      have ihe := (ih fuel (Nat.lt_succ_self fuel)).2.2
      refine ⟨?_, ?_, ?_⟩
      · -- tx_getattr
        intro t σ n r t' σ' m h hnone hsome
        simp only [tx_getattr] at h
        split at h <;> rename_i hcache
        · simp only [Prod.mk.injEq] at h
          obtain ⟨-, h2, -⟩ := h
          subst h2
          simp [hnone] at hsome
        · split at h <;> rename_i w1 t₁ σ₁ heq <;> simp only [Prod.mk.injEq] at h <;>
            obtain ⟨-, h2, -⟩ := h <;> subst h2
          · by_cases hmn : m = n
            · exact Or.inl hmn
            · replace hsome : (alookup (dictInsert t₁.services n w1) m).isSome = true := hsome
              rw [alookup_dictInsert_ne _ _ _ _ hmn] at hsome
              exact Or.inr ⟨hcache, ihs t σ n _ _ _ m heq hnone hsome⟩
          · exact Or.inr ⟨hcache, ihs t σ n _ _ _ m heq hnone hsome⟩
      · -- tx_get_service
        intro t σ n r t' σ' m h hnone hsome
        simp only [tx_get_service] at h
        split at h <;> rename_i hprov
        · simp only [Prod.mk.injEq] at h
          obtain ⟨-, h2, -⟩ := h; subst h2
          simp [hnone] at hsome
        · simp only [Prod.mk.injEq] at h
          obtain ⟨-, h2, -⟩ := h; subst h2
          simp [hnone] at hsome
        · simp only [Prod.mk.injEq] at h
          obtain ⟨-, h2, -⟩ := h; subst h2
          simp [hnone] at hsome
        · rename_i body
          exact ⟨body, hprov, ihe t σ body _ _ _ m h hnone hsome⟩
        · simp only [Prod.mk.injEq] at h
          obtain ⟨-, h2, -⟩ := h; subst h2
          simp [hnone] at hsome
      · -- evalP
        intro t σ e r t' σ' m h hnone hsome
        simp only [evalP] at h
        split at h
        · simp only [Prod.mk.injEq] at h
          obtain ⟨-, h2, -⟩ := h; subst h2
          simp [hnone] at hsome
        · simp only [Prod.mk.injEq] at h
          obtain ⟨-, h2, -⟩ := h; subst h2
          simp [hnone] at hsome
        · simp only [Prod.mk.injEq] at h
          obtain ⟨-, h2, -⟩ := h; subst h2
          simp [hnone] at hsome
        · split at h <;>
            · simp only [Prod.mk.injEq] at h
              obtain ⟨-, h2, -⟩ := h; subst h2
              simp [hnone] at hsome
        · -- getSvc
          rename_i k
          rcases ihg t σ k _ _ _ m h hnone hsome with hmk | ⟨hku, b, hpb, hrb⟩
          · subst hmk
            exact .here (by simp [occursSvc])
          · exact .step (by simp [occursSvc]) hku hpb hrb
        · -- seqE
          rename_i a b
          split at h <;> rename_i va t₁ σ₁ heq
          · cases hm1 : alookup t₁.services m with
            | some w =>
              exact LiveReach_seq_left (ihe t σ a _ _ _ m heq hnone (by simp [hm1]))
            | none =>
              have hr := ihe t₁ σ₁ b _ _ _ m h hm1 hsome
              have hfr := ((resolution_frame fuel).2.2 t σ a _ _ _ heq).1
              have hmono := (resolution_key_monotone fuel).2.2 t σ a _ _ _ heq
              exact LiveReach_seq_right (LiveReach_antitone hfr hmono hr)
          · simp only [Prod.mk.injEq] at h
            obtain ⟨-, h2, -⟩ := h; subst h2
            exact LiveReach_seq_left (ihe t σ a _ _ _ m heq hnone hsome)
        · -- isE
          rename_i a b
          split at h <;> rename_i va t₁ σ₁ heq
          · split at h <;> rename_i vb t₂ σ₂ heq2 <;>
              simp only [Prod.mk.injEq] at h <;>
              obtain ⟨-, h2, -⟩ := h <;> subst h2 <;>
              · cases hm1 : alookup t₁.services m with
                | some w =>
                  exact LiveReach_isE_left (ihe t σ a _ _ _ m heq hnone (by simp [hm1]))
                | none =>
                  have hr := ihe t₁ σ₁ b _ _ _ m heq2 hm1 hsome
                  have hfr := ((resolution_frame fuel).2.2 t σ a _ _ _ heq).1
                  have hmono := (resolution_key_monotone fuel).2.2 t σ a _ _ _ heq
                  exact LiveReach_isE_right (LiveReach_antitone hfr hmono hr)
          · simp only [Prod.mk.injEq] at h
            obtain ⟨-, h2, -⟩ := h; subst h2
            exact LiveReach_isE_left (ihe t σ a _ _ _ m heq hnone hsome)

/-! ### A self-supporting uncached set blocks resolution

If every name of `S` is bound to a one-argument provider whose body
mentions a name of `S`, and all of `S` is uncached, then resolving any
member of `S` keeps re-entering `S`, consumes fuel without ever
completing, and leaves all of `S` uncached. -/

theorem resolution_blocked : ∀ (fuel : Nat) (S : List String),
    (∀ t σ n r t' σ', selfSupporting t S → okS t S →
      tx_getattr fuel t σ n = (r, t', σ') →
      okS t' S ∧ (n ∈ S → ∃ e, r = .error e)) ∧
    (∀ t σ n r t' σ', selfSupporting t S → okS t S →
      tx_get_service fuel t σ n = (r, t', σ') →
      okS t' S ∧ (n ∈ S → ∃ e, r = .error e)) ∧
    (∀ t σ e r t' σ', selfSupporting t S → okS t S →
      evalP fuel t σ e = (r, t', σ') →
      okS t' S ∧ ((∃ m ∈ S, occursSvc m e = true) → ∃ err, r = .error err)) := by
  intro fuel
  induction fuel using Nat.strong_induction_on with
  | _ fuel ih =>
    intro S
    match fuel with
    | 0 =>
      refine ⟨?_, ?_, ?_⟩ <;>
        · intro t σ x r t' σ' hss hok h
          simp only [tx_getattr, tx_get_service, evalP, Prod.mk.injEq] at h
          obtain ⟨h1, h2, -⟩ := h
          subst h2
          exact ⟨hok, fun _ => ⟨.recursionError, h1.symm⟩⟩
    | fuel + 1 =>
      have ihg := ((ih fuel (Nat.lt_succ_self fuel)) S).1
      have ihs := ((ih fuel (Nat.lt_succ_self fuel)) S).2.1
      have ihe := ((ih fuel (Nat.lt_succ_self fuel)) S).2.2
      refine ⟨?_, ?_, ?_⟩
      · -- tx_getattr
        intro t σ n r t' σ' hss hok h
        simp only [tx_getattr] at h
        split at h <;> rename_i hcache
        · simp only [Prod.mk.injEq] at h
          obtain ⟨h1, h2, -⟩ := h
          subst h2
          refine ⟨hok, fun hn => ?_⟩
          rw [hok n hn] at hcache
          cases hcache
        · split at h <;> rename_i w1 t₁ σ₁ heq <;> simp only [Prod.mk.injEq] at h <;>
            obtain ⟨h1, h2, -⟩ := h <;> subst h2
          · -- _get_service succeeded: n cannot be in S, insert keeps S uncached
            obtain ⟨hok₁, herr⟩ := ihs t σ n _ _ _ hss hok heq
            have hnS : n ∉ S := fun hn => by
              obtain ⟨e, he⟩ := herr hn
              cases he
            refine ⟨?_, fun hn => absurd hn hnS⟩
            intro m hm
            have hmn : m ≠ n := fun hmn => hnS (hmn ▸ hm)
            show alookup (dictInsert t₁.services n w1) m = none
            rw [alookup_dictInsert_ne _ _ _ _ hmn]
            exact hok₁ m hm
          · obtain ⟨hok₁, herr⟩ := ihs t σ n _ _ _ hss hok heq
            exact ⟨hok₁, fun hn => ⟨_, h1.symm⟩⟩
      · -- tx_get_service
        intro t σ n r t' σ' hss hok h
        simp only [tx_get_service] at h
        by_cases hn : n ∈ S
        · -- the provider of n is a one-argument body mentioning S
          obtain ⟨b, hpb, hmb⟩ := hss n hn
          rw [hpb] at h
          obtain ⟨hok', herr⟩ := ihe t σ b _ _ _ hss hok h
          exact ⟨hok', fun _ => herr hmb⟩
        · split at h <;> rename_i hprov
          · simp only [Prod.mk.injEq] at h
            obtain ⟨h1, h2, -⟩ := h; subst h2
            exact ⟨hok, fun hmem => absurd hmem hn⟩
          · simp only [Prod.mk.injEq] at h
            obtain ⟨h1, h2, -⟩ := h; subst h2
            exact ⟨hok, fun hmem => absurd hmem hn⟩
          · simp only [Prod.mk.injEq] at h
            obtain ⟨h1, h2, -⟩ := h; subst h2
            exact ⟨hok, fun hmem => absurd hmem hn⟩
          · obtain ⟨hok', -⟩ := ihe t σ _ _ _ _ hss hok h
            exact ⟨hok', fun hmem => absurd hmem hn⟩
          · simp only [Prod.mk.injEq] at h
            obtain ⟨h1, h2, -⟩ := h; subst h2
            exact ⟨hok, fun hmem => absurd hmem hn⟩
      · -- evalP
        intro t σ e r t' σ' hss hok h
        simp only [evalP] at h
        split at h
        · -- lit
          simp only [Prod.mk.injEq] at h
          obtain ⟨h1, h2, -⟩ := h; subst h2
          refine ⟨hok, fun hocc => ?_⟩
          obtain ⟨m, -, ho⟩ := hocc
          simp [occursSvc] at ho
        · -- newObj
          simp only [Prod.mk.injEq] at h
          obtain ⟨h1, h2, -⟩ := h; subst h2
          refine ⟨hok, fun hocc => ?_⟩
          obtain ⟨m, -, ho⟩ := hocc
          simp [occursSvc] at ho
        · -- raiseE
          simp only [Prod.mk.injEq] at h
          obtain ⟨h1, h2, -⟩ := h; subst h2
          exact ⟨hok, fun _ => ⟨_, h1.symm⟩⟩
        · -- param
          split at h <;>
            · simp only [Prod.mk.injEq] at h
              obtain ⟨h1, h2, -⟩ := h; subst h2
              refine ⟨hok, fun hocc => ?_⟩
              obtain ⟨m, -, ho⟩ := hocc
              simp [occursSvc] at ho
        · -- getSvc k
          rename_i k
          obtain ⟨hok', herr⟩ := ihg t σ k _ _ _ hss hok h
          refine ⟨hok', fun hocc => ?_⟩
          obtain ⟨m, hm, ho⟩ := hocc
          simp [occursSvc] at ho
          subst ho
          exact herr hm
        · -- seqE
          rename_i a b
          split at h <;> rename_i va t₁ σ₁ heq
          · obtain ⟨hok₁, herra⟩ := ihe t σ a _ _ _ hss hok heq
            have hfr := ((resolution_frame fuel).2.2 t σ a _ _ _ heq).1
            have hss₁ : selfSupporting t₁ S := by
              intro m hm
              obtain ⟨b', hb', hm'⟩ := hss m hm
              exact ⟨b', by rw [hfr]; exact hb', hm'⟩
            obtain ⟨hok₂, herrb⟩ := ihe t₁ σ₁ b _ _ _ hss₁ hok₁ h
            refine ⟨hok₂, fun hocc => ?_⟩
            obtain ⟨m, hm, ho⟩ := hocc
            simp [occursSvc] at ho
            rcases ho with ho | ho
            · obtain ⟨e', he'⟩ := herra ⟨m, hm, ho⟩
              cases he'
            · exact herrb ⟨m, hm, ho⟩
          · simp only [Prod.mk.injEq] at h
            obtain ⟨h1, h2, -⟩ := h; subst h2
            obtain ⟨hok₁, -⟩ := ihe t σ a _ _ _ hss hok heq
            exact ⟨hok₁, fun _ => ⟨_, h1.symm⟩⟩
        · -- isE
          rename_i a b
          split at h <;> rename_i va t₁ σ₁ heq
          · have hfr := ((resolution_frame fuel).2.2 t σ a _ _ _ heq).1
            obtain ⟨hok₁, herra⟩ := ihe t σ a _ _ _ hss hok heq
            have hss₁ : selfSupporting t₁ S := by
              intro m hm
              obtain ⟨b', hb', hm'⟩ := hss m hm
              exact ⟨b', by rw [hfr]; exact hb', hm'⟩
            split at h <;> rename_i vb t₂ σ₂ heq2 <;>
              simp only [Prod.mk.injEq] at h <;>
              obtain ⟨h1, h2, -⟩ := h <;> subst h2 <;>
              obtain ⟨hok₂, herrb⟩ := ihe t₁ σ₁ b _ _ _ hss₁ hok₁ heq2
            · refine ⟨hok₂, fun hocc => ?_⟩
              obtain ⟨m, hm, ho⟩ := hocc
              simp [occursSvc] at ho
              rcases ho with ho | ho
              · obtain ⟨e', he'⟩ := herra ⟨m, hm, ho⟩
                cases he'
              · obtain ⟨e', he'⟩ := herrb ⟨m, hm, ho⟩
                cases he'
            · exact ⟨hok₂, fun _ => ⟨_, h1.symm⟩⟩
          · simp only [Prod.mk.injEq] at h
            obtain ⟨h1, h2, -⟩ := h; subst h2
            obtain ⟨hok₁, -⟩ := ihe t σ a _ _ _ hss hok heq
            exact ⟨hok₁, fun _ => ⟨_, h1.symm⟩⟩

/-- From a live-reach derivation ending at an uncached name, extract a
self-supporting uncached set: the names along the chain. -/
theorem liveReach_extract {t : ServiceContainerTransaction} {e : PExp} {n : String}
    (hl : LiveReach t e n) (hn : alookup t.services n = none) :
    ∃ S : List String, n ∈ S ∧ okS t S ∧
      (∀ m ∈ S, m = n ∨ ∃ b, alookup t.service_providers m = some (.fn1 b) ∧
        ∃ m' ∈ S, occursSvc m' b = true) ∧
      (∃ m' ∈ S, occursSvc m' e = true) := by
  induction hl with
  | @here e' m ho =>
    refine ⟨[m], by simp, ?_, ?_, ⟨m, by simp, ho⟩⟩
    · intro m' hm'
      simp at hm'
      subst hm'
      exact hn
    · intro m' hm'
      simp at hm'
      exact Or.inl hm'
  | @step e' k b m ho hku hkb hrec ih =>
    obtain ⟨S, hnS, hok, hcl, hocc⟩ := ih hn
    refine ⟨k :: S, by simp [hnS], ?_, ?_, ⟨k, by simp, ho⟩⟩
    · intro m' hm'
      rcases List.mem_cons.mp hm' with rfl | hm'
      · exact hku
      · exact hok m' hm'
    · intro m' hm'
      rcases List.mem_cons.mp hm' with rfl | hm'
      · refine Or.inr ⟨b, hkb, ?_⟩
        obtain ⟨m'', hm'', ho''⟩ := hocc
        exact ⟨m'', by simp [hm''], ho''⟩
      · rcases hcl m' hm' with rfl | ⟨b', hb', m'', hm'', ho''⟩
        · exact Or.inl rfl
        · exact Or.inr ⟨b', hb', m'', by simp [hm''], ho''⟩

/-! ### Claim theorems -/

/-- Claim C1: within one transaction, after a successful `get(n)` the
instance is cached under `n`, and a second `get(n)` returns the
identical instance with no state change and no provider invocation —
it is served from the cache. -/
theorem c1_identity_within_transaction
    {fuel : Nat} {t : ServiceContainerTransaction} {σ : Nat} {n : String}
    {v : Value} {t' : ServiceContainerTransaction} {σ' : Nat}
    (h : tx_getattr fuel t σ n = (.ok v, t', σ')) :
    alookup t'.services n = some v ∧
    ∀ g σ₂, tx_getattr (g + 1) t' σ₂ n = (.ok v, t', σ₂) := by
  have hc := tx_getattr_caches h
  exact ⟨hc, fun g σ₂ => tx_getattr_cache_hit hc g σ₂⟩

/-- Witness for C1 at a concrete transaction with an object-allocating
provider: the first lookup from the empty cache yields `obj 0` and
caches it, and repeated lookups return the identical `obj 0` leaving
the transaction unchanged. -/
theorem c1_identity_within_transaction_witness :
    alookup objTxnCached.services "obj" = some (.obj 0) ∧
    ∀ g σ₂, tx_getattr (g + 1) objTxnCached σ₂ "obj" = (.ok (.obj 0), objTxnCached, σ₂) :=
  c1_identity_within_transaction
    (show tx_getattr 2 objTxn 0 "obj" = (.ok (.obj 0), objTxnCached, 1) from rfl)

/-- Claim C2: a container-level lookup resolves on a fresh empty
transaction and discards it, so two successive lookups share no cache:
an instance-producing provider runs anew each time and the two calls
return distinct instances. -/
theorem c2_isolation_across_lookups
    {c : ServiceContainer} {n : String}
    (h : alookup c.service_providers n = some (.fn0 .newObj)) (f₁ f₂ σ : Nat) :
    sc_getattr (f₁ + 2) c σ n = (.ok (.obj σ), σ + 1) ∧
    sc_getattr (f₂ + 2) c (σ + 1) n = (.ok (.obj (σ + 1)), σ + 2) ∧
    (Value.obj σ) ≠ (Value.obj (σ + 1)) := by
  have h1 := @tx_getattr_fn0_newObj (sc_create_transaction c []) n rfl h f₁ σ
  have h2 := @tx_getattr_fn0_newObj (sc_create_transaction c []) n rfl h f₂ (σ + 1)
  refine ⟨?_, ?_, by simp⟩
  · simp [sc_getattr, h1]
  · simp [sc_getattr, h2]

/-- Witness for C2 at a concrete container: the two top-level lookups
of "obj" return `obj 0` and `obj 1`, which differ. -/
theorem c2_isolation_across_lookups_witness :
    sc_getattr 2 objContainer 0 "obj" = (.ok (.obj 0), 1) ∧
    sc_getattr 2 objContainer 1 "obj" = (.ok (.obj 1), 2) ∧
    (Value.obj 0) ≠ (Value.obj 1) :=
  @c2_isolation_across_lookups objContainer "obj" rfl 0 0 0

/-- Claim C3: when two providers form a dependency cycle (each
resolving the other), a container-level get of a name in the cycle
fails for every recursion limit with the recursion-limit error — the
Circular Dependency surface of the source — never hanging and never
producing a value. -/
theorem c3_circular_dependency
    {c : ServiceContainer} {n₁ n₂ : String}
    (h1 : alookup c.service_providers n₁ = some (.fn1 (.getSvc n₂)))
    (h2 : alookup c.service_providers n₂ = some (.fn1 (.getSvc n₁))) :
    ∀ fuel σ, sc_getattr fuel c σ n₁ = (.error .recursionError, σ) := by
  intro fuel σ
  have h := cycle_pair_recursion fuel (sc_create_transaction c []) σ n₁ n₂ h1 h2 rfl rfl
  simp [sc_getattr, h]

/-- Witness for C3 at the container of the regression test
(`foo -> bar`, `bar -> foo`): `get("foo")` fails with the recursion
error at a sample recursion limit. -/
theorem c3_circular_dependency_witness :
    sc_getattr 30 cycContainer 0 "foo" = (.error .recursionError, 0) :=
  @c3_circular_dependency cycContainer "foo" "bar" rfl rfl 30 0

/-- Claim C4: a fork with no new params copies the whole state (in the
model the child equals the parent as a value, reflecting that the
source copies providers, cache and params): every name already cached
in the parent is returned identically by both transactions; a name not
yet cached whose provider allocates a fresh object resolves in the
child to a private fresh instance, and a later resolution of the same
name in the parent yields a distinct instance. -/
theorem c4_fork_preserves_cache
    {t₁ t₂ : ServiceContainerTransaction}
    (hfork : tx_create_transaction t₁ [] = .ok t₂) :
    t₂ = t₁ ∧
    (∀ n v g σ, alookup t₁.services n = some v →
      tx_getattr (g + 1) t₂ σ n = (.ok v, t₂, σ) ∧
      tx_getattr (g + 1) t₁ σ n = (.ok v, t₁, σ)) ∧
    (∀ m f₁ f₂ σ, alookup t₁.services m = none →
      alookup t₁.service_providers m = some (.fn0 .newObj) →
      tx_getattr (f₁ + 2) t₂ σ m =
        (.ok (.obj σ), { t₂ with services := dictInsert t₂.services m (.obj σ) }, σ + 1) ∧
      tx_getattr (f₂ + 2) t₁ (σ + 1) m =
        (.ok (.obj (σ + 1)), { t₁ with services := dictInsert t₁.services m (.obj (σ + 1)) }, σ + 2) ∧
      (Value.obj σ) ≠ (Value.obj (σ + 1))) := by
  have ht : t₂ = t₁ := by
    simp only [tx_create_transaction, mergeParams, Except.ok.injEq] at hfork
    rw [← hfork]
  subst ht
  refine ⟨rfl, ?_, ?_⟩
  · intro n v g σ hs
    exact ⟨tx_getattr_cache_hit hs g σ, tx_getattr_cache_hit hs g σ⟩
  · intro m f₁ f₂ σ hs hp
    exact ⟨tx_getattr_fn0_newObj hs hp f₁ σ, tx_getattr_fn0_newObj hs hp f₂ (σ + 1), by simp⟩

/-- Witness for C4 at a concrete parent transaction that has "done"
cached and an unresolved "obj" provider. -/
theorem c4_fork_preserves_cache_witness :
    forkTxn = forkTxn ∧
    (∀ n v g σ, alookup forkTxn.services n = some v →
      tx_getattr (g + 1) forkTxn σ n = (.ok v, forkTxn, σ) ∧
      tx_getattr (g + 1) forkTxn σ n = (.ok v, forkTxn, σ)) ∧
    (∀ m f₁ f₂ σ, alookup forkTxn.services m = none →
      alookup forkTxn.service_providers m = some (.fn0 .newObj) →
      tx_getattr (f₁ + 2) forkTxn σ m =
        (.ok (.obj σ), { forkTxn with
          services := dictInsert forkTxn.services m (.obj σ) }, σ + 1) ∧
      tx_getattr (f₂ + 2) forkTxn (σ + 1) m =
        (.ok (.obj (σ + 1)), { forkTxn with
          services := dictInsert forkTxn.services m (.obj (σ + 1)) }, σ + 2) ∧
      (Value.obj σ) ≠ (Value.obj (σ + 1))) :=
  @c4_fork_preserves_cache forkTxn forkTxn rfl

/-- Claim C5: forking with incoming params (distinct keys, as Python
kwargs are) is all-or-nothing: if some incoming key already exists in
the params of the transaction, the fork fails with a Param Override
error naming such a key and produces no transaction; if no incoming
key exists yet, the fork succeeds and the child carries the original
params extended by all incoming ones, the parent params being read
only through a copy. -/
theorem c5_param_override
    {t : ServiceContainerTransaction} {p : List (String × Value)}
    (hnd : (p.map Prod.fst).Nodup) :
    ((∃ kv ∈ p, (alookup t.params kv.1).isSome) →
      ∃ k, (∃ v, (k, v) ∈ p) ∧ (alookup t.params k).isSome ∧
        tx_create_transaction t p = .error (.paramOverride k)) ∧
    ((∀ k v, (k, v) ∈ p → alookup t.params k = none) →
      tx_create_transaction t p =
        .ok (ServiceContainerTransaction.mk t.service_providers t.services (t.params ++ p))) := by
  constructor
  · intro hcol
    obtain ⟨k, hk1, hk2, hk3⟩ := mergeParams_collision p t.params hnd hcol
    exact ⟨k, hk1, hk2, by simp [tx_create_transaction, hk3]⟩
  · intro hdisj
    have h := mergeParams_disjoint p t.params hnd hdisj
    simp [tx_create_transaction, h]

/-- Witness for C5 at the transactions of the params regression test:
re-setting "lang" fails with Param Override naming "lang"; adding the
fresh key "env" succeeds and the child sees both params. -/
theorem c5_param_override_witness :
    (∃ k, (∃ v, (k, v) ∈ [("lang", Value.str "sk")]) ∧
      (alookup langTxn.params k).isSome ∧
      tx_create_transaction langTxn [("lang", Value.str "sk")] =
        .error (.paramOverride k)) ∧
    tx_create_transaction langTxn [("env", Value.str "test")] =
      .ok (ServiceContainerTransaction.mk [] []
        [("lang", Value.str "cz"), ("env", Value.str "test")]) := by
  constructor
  · exact (@c5_param_override langTxn [("lang", Value.str "sk")] (by simp)).1
      ⟨("lang", Value.str "sk"), by simp, by simp [langTxn, alookup]⟩
  · exact (@c5_param_override langTxn [("env", Value.str "test")] (by simp)).2
      (by intro k v h; simp at h; simp [h, langTxn, alookup])

/-- Claim C6: when the provider invocation for `n` fails — the
provider raises, reads a missing param, or a nested get it makes
fails — the same error propagates unmodified out of `get(n)`, nothing
is cached under `n`, and a retry of `get(n)` on the same transaction
goes through `_get_service` again, re-invoking the provider from
scratch.  This holds for every provider: a name can only be cached by
a completed resolution of itself, and within the failing invocation
any such nested resolution would have to re-run the same provider body
with `n` still uncached, which only consumes fuel and errors (the
blocked-set lemma applied to the live dependency chain). -/
theorem c6_provider_failure
    {t : ServiceContainerTransaction} {n : String} {fuel σ : Nat}
    {e : Err} {t₁ : ServiceContainerTransaction} {σ₁ : Nat}
    (hs : alookup t.services n = none)
    (hfail : tx_get_service fuel t σ n = (.error e, t₁, σ₁)) :
    tx_getattr (fuel + 1) t σ n = (.error e, t₁, σ₁) ∧
    alookup t₁.services n = none ∧
    ∀ g, tx_getattr (g + 1) t₁ σ₁ n =
      (match tx_get_service g t₁ σ₁ n with
       | (.ok v, t₂, σ₂) => (.ok v, { t₂ with services := dictInsert t₂.services n v }, σ₂)
       | (.error e', t₂, σ₂) => (.error e', t₂, σ₂)) := by
  have hnone : alookup t₁.services n = none := by
    cases hcase : alookup t₁.services n with
    | none => rfl
    | some w =>
      obtain ⟨b, hpb, hlive⟩ :=
        (resolution_inserts_live fuel).2.1 t σ n _ _ _ n hfail hs (by simp [hcase])
      obtain ⟨S, hnS, hok, hcl, hocc⟩ := liveReach_extract hlive hs
      have hss : selfSupporting t S := by
        intro m hm
        rcases hcl m hm with rfl | hmore
        · exact ⟨b, hpb, hocc⟩
        · exact hmore
      have hblocked := ((resolution_blocked fuel S).2.1 t σ n _ _ _ hss hok hfail).1 n hnS
      simp [hcase] at hblocked
  refine ⟨?_, hnone, ?_⟩
  · simp [tx_getattr, hs, hfail]
  · intro g
    simp [tx_getattr, hnone]

/-- Witness for C6 at the provider-failure regression test hardened
with a dead self-lookup (`foo` raises "Nope" before `t.foo`): the
IOError propagates unmodified, nothing gets cached, and the retry
goes through `_get_service` again. -/
theorem c6_provider_failure_witness :
    tx_getattr 4 failTxn 0 "foo" = (.error (.userError "Nope"), failTxn, 0) ∧
    alookup failTxn.services "foo" = none ∧
    ∀ g, tx_getattr (g + 1) failTxn 0 "foo" =
      (match tx_get_service g failTxn 0 "foo" with
       | (.ok v, t₂, σ₂) =>
         (.ok v, { t₂ with services := dictInsert t₂.services "foo" v }, σ₂)
       | (.error e', t₂, σ₂) => (.error e', t₂, σ₂)) :=
  @c6_provider_failure failTxn "foo" 3 0 (.userError "Nope") failTxn 0
    rfl
    (show tx_get_service 3 failTxn 0 "foo" =
      (.error (.userError "Nope"), failTxn, 0) from rfl)

/-- Claim C7: provider dispatch by declared parameter count: count 0 →
invoked with no arguments (only the allocation state is passed); count
1 → invoked with this transaction itself as the sole argument, so its
nested gets and param reads use this cache and params; any other
count → Invalid Provider error before any invocation, with the
transaction and allocation state untouched (shown both at
`_get_service` and at an uncached `get`). -/
theorem c7_arity_dispatch
    {t : ServiceContainerTransaction} {n : String} (f σ : Nat) :
    (∀ b, alookup t.service_providers n = some (.fn0 b) →
      tx_get_service (f + 1) t σ n = ((invoke0 b σ).1, t, (invoke0 b σ).2)) ∧
    (∀ b, alookup t.service_providers n = some (.fn1 b) →
      tx_get_service (f + 1) t σ n = evalP f t σ b) ∧
    (∀ c, alookup t.service_providers n = some (.fnN c) →
      tx_get_service (f + 1) t σ n = (.error (.invalidArity c), t, σ) ∧
      (alookup t.services n = none →
        tx_getattr (f + 2) t σ n = (.error (.invalidArity c), t, σ))) := by
  refine ⟨?_, ?_, ?_⟩
  · intro b hb
    simp [tx_get_service, hb]
  · intro b hb
    simp [tx_get_service, hb]
  · intro c hc
    constructor
    · simp [tx_get_service, hc]
    · intro hs
      simp [tx_getattr, tx_get_service, hs, hc]

/-- Witness for C7 at a concrete transaction holding a provider of
each declared parameter count (0, 1 and 2). -/
theorem c7_arity_dispatch_witness :
    tx_get_service 1 arityTxn 0 "a" = (.ok (.vnat 1), arityTxn, 0) ∧
    tx_get_service 1 arityTxn 0 "b" = evalP 0 arityTxn 0 (.lit (.vnat 2)) ∧
    tx_get_service 1 arityTxn 0 "c" = (.error (.invalidArity 2), arityTxn, 0) :=
  ⟨(@c7_arity_dispatch arityTxn "a" 0 0).1 (.lit (.vnat 1)) rfl,
   (@c7_arity_dispatch arityTxn "b" 0 0).2.1 (.lit (.vnat 2)) rfl,
   ((@c7_arity_dispatch arityTxn "c" 0 0).2.2 2 rfl).1⟩

/-- Claim C8: a name with no registered provider fails with a Missing
Provider error whose message identifies the name; no provider is
invoked, the transaction (cache included) and allocation state are
unchanged — both on a transaction and through the implicit transaction
of a container-level lookup. -/
theorem c8_missing_provider
    {t : ServiceContainerTransaction} {n : String}
    (hp : alookup t.service_providers n = none)
    (hs : alookup t.services n = none) (f σ : Nat) :
    tx_getattr (f + 2) t σ n = (.error (.missingProvider n), t, σ) ∧
    errMessage (.missingProvider n) = "Missing provider for service \x22" ++ n ++ "\x22" ∧
    ∀ (c : ServiceContainer) (σc : Nat), alookup c.service_providers n = none →
      sc_getattr (f + 2) c σc n = (.error (.missingProvider n), σc) := by
  refine ⟨?_, rfl, ?_⟩
  · simp [tx_getattr, tx_get_service, hs, hp]
  · intro c σc hc
    simp [sc_getattr, tx_getattr, tx_get_service, sc_create_transaction, hc, alookup]

/-- Witness for C8 at the container of the missing-service regression
test: `get("nonexistent")` fails with Missing Provider naming
"nonexistent". -/
theorem c8_missing_provider_witness :
    tx_getattr 2 missTxn 0 "nonexistent" =
      (.error (.missingProvider "nonexistent"), missTxn, 0) ∧
    errMessage (.missingProvider "nonexistent") =
      "Missing provider for service \x22" ++ "nonexistent" ++ "\x22" ∧
    ∀ (c : ServiceContainer) (σc : Nat),
      alookup c.service_providers "nonexistent" = none →
      sc_getattr 2 c σc "nonexistent" = (.error (.missingProvider "nonexistent"), σc) :=
  @c8_missing_provider missTxn "nonexistent" rfl rfl 0 0

/-- Claim C9: params are never mutated by resolution: whatever a get
does (succeed or fail), the resulting transaction carries exactly the
params fixed at creation; and a fork never writes into the parent
params — it builds the child params as a fresh copy extending them. -/
theorem c9_params_immutable
    {fuel : Nat} {t : ServiceContainerTransaction} {σ : Nat} {n : String}
    {r : Except Err Value} {t' : ServiceContainerTransaction} {σ' : Nat}
    (h : tx_getattr fuel t σ n = (r, t', σ')) :
    t'.params = t.params ∧
    ∀ (p : List (String × Value)) (t₂ : ServiceContainerTransaction),
      tx_create_transaction t p = .ok t₂ → t₂.params = t.params ++ p := by
  refine ⟨(tx_getattr_frame h).2, ?_⟩
  intro p t₂ hf
  simp only [tx_create_transaction] at hf
  split at hf <;> rename_i np hm
  · simp only [Except.ok.injEq] at hf
    rw [← hf]
    exact mergeParams_ok_eq p t.params np hm
  · exact absurd hf (by simp)

/-- Witness for C9 at a concrete transaction with a param-reading
provider: resolving leaves the params untouched and a fork extends
them into the child only. -/
theorem c9_params_immutable_witness :
    (ServiceContainerTransaction.mk [("foo", .fn1 (.param "lang"))]
        [("foo", .str "cz")] [("lang", .str "cz")]).params = [("lang", Value.str "cz")] ∧
    ∀ (p : List (String × Value)) (t₂ : ServiceContainerTransaction),
      tx_create_transaction paramTxn p = .ok t₂ →
      t₂.params = [("lang", Value.str "cz")] ++ p :=
  c9_params_immutable
    (show tx_getattr 3 paramTxn 0 "foo" =
      (.ok (.str "cz"), ServiceContainerTransaction.mk [("foo", .fn1 (.param "lang"))]
        [("foo", .str "cz")] [("lang", .str "cz")], 0) from rfl)

/-- Claim C10: a name bound to a non-callable value fails with the
must-be-callable error, raised before arity inspection or invocation
(the error names the binding, not an arity), and the transaction —
cache included — and allocation state are unchanged. -/
theorem c10_not_callable
    {t : ServiceContainerTransaction} {n s : String}
    (hp : alookup t.service_providers n = some (.notCallable s))
    (hs : alookup t.services n = none) (f σ : Nat) :
    tx_getattr (f + 2) t σ n = (.error (.notCallable s), t, σ) ∧
    errMessage (.notCallable s) =
      "Service provider must be callable, got \x27" ++ s ++ "\x27 instead." := by
  refine ⟨?_, rfl⟩
  simp [tx_getattr, tx_get_service, hs, hp]

/-- Witness for C10 at a transaction binding "foo" to the non-callable
value 42. -/
theorem c10_not_callable_witness :
    tx_getattr 2 ncTxn 0 "foo" = (.error (.notCallable "42"), ncTxn, 0) ∧
    errMessage (.notCallable "42") =
      "Service provider must be callable, got \x27" ++ "42" ++ "\x27 instead." :=
  @c10_not_callable ncTxn "foo" "42" rfl rfl 0 0
